import Mathlib

/-!
Verification development for the K197Control library (gemini protocol).

The definitions below are a shallow embedding of the C++ sources:
  - `boolFifo`        from src/boolFifo.h (class boolFifo)
  - `GeminiProtocol`  from src/gemini.h and gemini.cpp (class GeminiProtocol)
  - `GeminiFrame`     from src/geminiFrame.h (class GeminiFrame)

Machine integers: `size_t` counters and `unsigned long` (32-bit AVR)
timestamps are modelled as `Nat`; the wrap-around subtraction
`currentTime - lastBitReadTime` on `unsigned long` is modelled explicitly
by `usub` below.  Hardware I/O (`fast_write`, `delayMicroseconds`,
interrupt flag) is modelled as explicit state: each peer records the level
it drives on its output line, and an update step reports whether it
emitted a rising-edge pulse (the `fast_write(HIGH); delayMicroseconds(..)`
pattern), which in a two-peer world sets the `inputEdgeDetected` flag of
the other peer.
-/

namespace K197

set_option maxRecDepth 100000

/-- FIFO_SIZE from boolFifo.h. -/
def FIFO_SIZE : Nat := 64

/-- UINT32_MOD is 2 to the power 32, the modulus of `unsigned long` on AVR. -/
def UINT32_MOD : Nat := 4294967296

/-- usub models C unsigned 32-bit subtraction `a - b` (wrap-around). -/
def usub (a b : Nat) : Nat := (a + UINT32_MOD - b % UINT32_MOD) % UINT32_MOD

/-- boolFifo from boolFifo.h: a circular buffer of single-bit values.
The C array `bool buffer[FIFO_SIZE]` is modelled as a total function from
indices to Bool (only indices below FIFO_SIZE are ever used). -/
structure boolFifo where
  buffer : Nat → Bool
  head : Nat
  tail : Nat
  count : Nat

/-- Constructor boolFifo(): head, tail and count start at 0. -/
def boolFifo.init : boolFifo := ⟨fun _ => false, 0, 0, 0⟩

/-- push from boolFifo.h: returns false (no mutation) when full, else
stores at the tail, advances the tail modulo FIFO_SIZE and increments
count. -/
def boolFifo.push (f : boolFifo) (value : Bool) : Bool × boolFifo :=
  if FIFO_SIZE ≤ f.count then
    (false, f)
  else
    (true, { f with buffer := Function.update f.buffer f.tail value,
                    tail := (f.tail + 1) % FIFO_SIZE,
                    count := f.count + 1 })

/-- pull from boolFifo.h: returns false when empty (count is a size_t, so
`count <= 0` means `count == 0`), else returns the element at the head,
advances the head modulo FIFO_SIZE and decrements count. -/
def boolFifo.pull (f : boolFifo) : Bool × boolFifo :=
  if f.count = 0 then
    (false, f)
  else
    (f.buffer f.head, { f with head := (f.head + 1) % FIFO_SIZE,
                               count := f.count - 1 })

/-- empty from boolFifo.h. -/
def boolFifo.empty (f : boolFifo) : Bool := f.count == 0

/-- full from boolFifo.h. -/
def boolFifo.full (f : boolFifo) : Bool := f.count == FIFO_SIZE

/-- size from boolFifo.h. -/
def boolFifo.size (f : boolFifo) : Nat := f.count

/-- Well-formedness of a boolFifo reachable from the constructor: the
count never exceeds the capacity, the head stays below the capacity and
the tail is the head advanced by the count, modulo the capacity. -/
def boolFifo.WF (f : boolFifo) : Prop :=
  f.count ≤ FIFO_SIZE ∧ f.head < FIFO_SIZE ∧ f.tail = (f.head + f.count) % FIFO_SIZE

instance (f : boolFifo) : Decidable f.WF := by
  unfold boolFifo.WF; infer_instance

/-- Abstraction function: the queued bits in order, head first. -/
def boolFifo.toList (f : boolFifo) : List Bool :=
  (List.range f.count).map fun i => f.buffer ((f.head + i) % FIFO_SIZE)

theorem boolFifo.WF_init : boolFifo.WF boolFifo.init := by decide

theorem boolFifo.toList_init : boolFifo.toList boolFifo.init = [] := rfl

theorem boolFifo.toList_length (f : boolFifo) : f.toList.length = f.count := by
  simp [boolFifo.toList]

theorem boolFifo.push_full (f : boolFifo) (v : Bool) (h : FIFO_SIZE ≤ f.count) :
    f.push v = (false, f) := by
  simp [boolFifo.push, h]

theorem boolFifo.push_spec (f : boolFifo) (v : Bool) (hwf : f.WF)
    (h : f.count < FIFO_SIZE) :
    (f.push v).1 = true ∧ (f.push v).2.WF ∧
      (f.push v).2.toList = f.toList ++ [v] ∧ (f.push v).2.count = f.count + 1 := by
  obtain ⟨hc, hh, ht⟩ := hwf
  have hnot : ¬ FIFO_SIZE ≤ f.count := Nat.not_le.mpr h
  refine ⟨by simp [boolFifo.push, hnot], ⟨?_, ?_, ?_⟩, ?_, by simp [boolFifo.push, hnot]⟩
  · simp [boolFifo.push, hnot]; omega
  · simp [boolFifo.push, hnot]; exact hh
  · simp [boolFifo.push, hnot, ht, Nat.mod_add_mod, Nat.add_assoc]
  · simp only [boolFifo.push, hnot, if_false]
    show ((List.range (f.count + 1)).map fun i =>
        Function.update f.buffer f.tail v ((f.head + i) % FIFO_SIZE)) = _
    rw [List.range_succ, List.map_append]
    congr 1
    · apply List.map_congr_left
      intro i hi
      have hilt : i < f.count := List.mem_range.mp hi
      apply Function.update_noteq
      rw [ht]
      intro heq
      have hmod : i % FIFO_SIZE = f.count % FIFO_SIZE :=
        Nat.ModEq.add_left_cancel' f.head heq
      rw [Nat.mod_eq_of_lt (lt_trans hilt h), Nat.mod_eq_of_lt h] at hmod
      omega
    · simp only [List.map_cons, List.map_nil]
      rw [show (f.head + f.count) % FIFO_SIZE = f.tail from ht.symm,
        Function.update_same]

theorem boolFifo.pull_empty (f : boolFifo) (h : f.count = 0) :
    f.pull = (false, f) := by
  simp [boolFifo.pull, h]

theorem boolFifo.pull_spec (f : boolFifo) (hwf : f.WF) (h : 0 < f.count) :
    (f.pull).2.WF ∧ f.toList = (f.pull).1 :: (f.pull).2.toList ∧
      (f.pull).2.count = f.count - 1 := by
  obtain ⟨hc, hh, ht⟩ := hwf
  have hnz : ¬ f.count = 0 := Nat.pos_iff_ne_zero.mp h
  refine ⟨⟨?_, ?_, ?_⟩, ?_, by simp [boolFifo.pull, hnz]⟩
  · simp [boolFifo.pull, hnz]; omega
  · simp [boolFifo.pull, hnz]
    exact Nat.mod_lt _ (by decide)
  · simp [boolFifo.pull, hnz, ht, Nat.mod_add_mod]
    congr 1
    omega
  · simp only [boolFifo.pull, hnz, if_false]
    show f.toList = f.buffer f.head :: ((List.range (f.count - 1)).map fun i =>
      f.buffer (((f.head + 1) % FIFO_SIZE + i) % FIFO_SIZE))
    unfold boolFifo.toList
    obtain ⟨m, hm⟩ : ∃ m, f.count = m + 1 := ⟨f.count - 1, by omega⟩
    rw [hm]
    rw [List.range_succ_eq_map, List.map_cons, List.map_map]
    congr 1
    · rw [Nat.add_zero, Nat.mod_eq_of_lt hh]
    · simp only [hm, Nat.add_sub_cancel]
      apply List.map_congr_left
      intro i _
      simp only [Function.comp, Nat.succ_eq_add_one]
      rw [Nat.mod_add_mod]
      congr 2
      omega

/-- pushList pushes a list of bits in order (repeated calls to push). -/
def pushList (f : boolFifo) : List Bool → boolFifo
  | [] => f
  | b :: rest => pushList (f.push b).2 rest

/-- pullList performs n successive pulls, collecting the returned bits. -/
def pullList (f : boolFifo) : Nat → List Bool × boolFifo
  | 0 => ([], f)
  | n + 1 =>
    let p := f.pull
    let q := pullList p.2 n
    (p.1 :: q.1, q.2)

theorem pushList_spec (l : List Bool) : ∀ f : boolFifo, f.WF →
    f.count + l.length ≤ FIFO_SIZE →
    (pushList f l).WF ∧ (pushList f l).toList = f.toList ++ l ∧
      (pushList f l).count = f.count + l.length := by
  induction l with
  | nil => intro f hwf _; simpa [pushList] using hwf
  | cons b rest ih =>
    intro f hwf hle
    have hlt : f.count < FIFO_SIZE := by simp at hle; omega
    obtain ⟨-, hwf2, htl, hcnt⟩ := f.push_spec b hwf hlt
    have hle2 : (f.push b).2.count + rest.length ≤ FIFO_SIZE := by
      rw [hcnt]; simp at hle ⊢; omega
    obtain ⟨h1, h2, h3⟩ := ih (f.push b).2 hwf2 hle2
    refine ⟨h1, ?_, ?_⟩
    · rw [pushList, h2, htl]; simp
    · rw [pushList, h3, hcnt]; simp; omega

theorem pullList_spec (n : Nat) : ∀ f : boolFifo, f.WF → n = f.count →
    (pullList f n).1 = f.toList ∧ (pullList f n).2.WF ∧
      (pullList f n).2.count = 0 := by
  induction n with
  | zero =>
    intro f hwf hn
    have : f.toList = [] := by
      have := f.toList_length
      rw [← hn] at this
      exact List.length_eq_zero.mp this
    simpa [pullList, this] using ⟨hwf, hn.symm⟩
  | succ m ih =>
    intro f hwf hn
    have hpos : 0 < f.count := by omega
    obtain ⟨hwf2, htl, hcnt⟩ := f.pull_spec hwf hpos
    have hm : m = (f.pull).2.count := by omega
    obtain ⟨ih1, ih2, ih3⟩ := ih (f.pull).2 hwf2 hm
    refine ⟨?_, ih2, ih3⟩
    simp only [pullList]
    rw [ih1, htl]

/-- Protocol states of GeminiProtocol (gemini.h, enum class State). -/
inductive State where
  | IDLE
  | BIT_READ_START
  | BIT_WRITE_WAIT_ACK
  | BIT_WRITE_END
deriving DecidableEq

/-- GeminiProtocol from gemini.h / gemini.cpp.  Pin numbers and port
registers are not modelled; instead `outputLine` records the level last
driven on the output pin with `fast_write`, and `inputEdgeDetected`
models the volatile flag set by the rising-edge interrupt handler (one
flag per peer in the simulated world). -/
structure GeminiProtocol where
  writePulseMicros : Nat
  handshakeTimeoutMicros : Nat
  readDelayMicros : Nat
  writeDelayMicros : Nat
  canBeInitiator : Bool
  isInitiator : Bool
  state : State
  inputBuffer : boolFifo
  outputBuffer : boolFifo
  lastBitReadTime : Nat
  frameTimeout : Nat
  frameEndDetected : Bool
  inputEdgeDetected : Bool
  outputLine : Bool

/-- update from gemini.cpp lines 81-171.  `currentTime` stands for the
value of micros() at the top of the call and `inputLine` for the level
read from the input pin by fast_read().  The returned Bool reports
whether the step emitted a rising-edge pulse on the output line (the
`fast_write(HIGH); delayMicroseconds(writePulseMicros)` pattern), which
the simulated world delivers as an edge interrupt to the peer. -/
def GeminiProtocol.update (g : GeminiProtocol) (currentTime : Nat)
    (inputLine : Bool) : GeminiProtocol × Bool :=
  match g.state with
  | State.IDLE =>
    if g.inputEdgeDetected then
      ({ g with isInitiator := false, frameEndDetected := false,
                state := State.BIT_READ_START,
                lastBitReadTime := currentTime,
                inputEdgeDetected := false }, false)
    else if g.frameEndDetected then
      if g.canBeInitiator && decide (0 < g.outputBuffer.size) then
        ({ g with isInitiator := true,
                  outputLine := (g.outputBuffer.pull).1,
                  outputBuffer := (g.outputBuffer.pull).2,
                  frameEndDetected := false,
                  state := State.BIT_WRITE_WAIT_ACK,
                  lastBitReadTime := currentTime }, true)
      else (g, false)
    else if g.frameTimeout ≤ usub currentTime g.lastBitReadTime then
      ({ g with frameEndDetected := true }, false)
    else (g, false)
  | State.BIT_READ_START =>
    if g.readDelayMicros ≤ usub currentTime g.lastBitReadTime then
      let ib := (g.inputBuffer.push inputLine).2
      if g.outputBuffer.empty then
        if g.isInitiator then
          ({ g with inputBuffer := ib, outputLine := false,
                    inputEdgeDetected := false, isInitiator := false,
                    state := State.IDLE,
                    lastBitReadTime := currentTime }, false)
        else
          ({ g with inputBuffer := ib, outputLine := false,
                    state := State.IDLE,
                    lastBitReadTime := currentTime }, true)
      else
        ({ g with inputBuffer := ib,
                  outputLine := (g.outputBuffer.pull).1,
                  outputBuffer := (g.outputBuffer.pull).2,
                  state := State.BIT_WRITE_WAIT_ACK,
                  lastBitReadTime := currentTime }, true)
    else (g, false)
  | State.BIT_WRITE_WAIT_ACK =>
    if g.inputEdgeDetected then
      ({ g with state := State.BIT_WRITE_END,
                lastBitReadTime := currentTime,
                inputEdgeDetected := false }, false)
    else (g, false)
  | State.BIT_WRITE_END =>
    if g.writeDelayMicros ≤ usub currentTime g.lastBitReadTime then
      ({ g with outputLine := false, state := State.BIT_READ_START,
                lastBitReadTime := currentTime }, false)
    else (g, false)

/-- send(bool) from gemini.h lines 111-117. -/
def GeminiProtocol.sendBit (g : GeminiProtocol) (bit : Bool) :
    Bool × GeminiProtocol :=
  if g.outputBuffer.full then
    (false, g)
  else
    (true, { g with outputBuffer := (g.outputBuffer.push bit).2 })

/-- Loop body of send(uint8_t): `n` counts the remaining iterations, so
iteration `n = m + 1` handles bit index `i = m` (the C loop runs
`i = 7; i >= 0; i--`, starting with n = 8). -/
def GeminiProtocol.sendByteFrom (g : GeminiProtocol) (data : Nat) :
    Nat → Bool × GeminiProtocol
  | 0 => (true, g)
  | m + 1 =>
    let p := g.sendBit (data.testBit m)
    if p.1 then p.2.sendByteFrom data m
    else (false, p.2)

/-- send(uint8_t) from gemini.h lines 101-109: pushes the 8 bits of the
byte MSB first, stopping and returning false at the first failed
enqueue. -/
def GeminiProtocol.send (g : GeminiProtocol) (data : Nat) :
    Bool × GeminiProtocol :=
  g.sendByteFrom data 8

/-- hasData() from gemini.h. -/
def GeminiProtocol.hasData (g : GeminiProtocol) : Bool :=
  !g.inputBuffer.empty

/-- hasData(uint8_t n) from gemini.h. -/
def GeminiProtocol.hasDataN (g : GeminiProtocol) (n : Nat) : Bool :=
  decide (n ≤ g.inputBuffer.size)

/-- receive() from gemini.h: pulls one bit from the input FIFO. -/
def GeminiProtocol.receive (g : GeminiProtocol) : Bool × GeminiProtocol :=
  ((g.inputBuffer.pull).1, { g with inputBuffer := (g.inputBuffer.pull).2 })

/-- Accumulation loop of receiveByte: `n` counts remaining iterations,
iteration `n = m + 1` handles bit index `i = m` (the C loop runs
`i = 7; i >= 0; i--`), or-ing `bitValue << i` into the accumulator. -/
def GeminiProtocol.recvBitsFrom (g : GeminiProtocol) (acc : Nat) :
    Nat → Nat × GeminiProtocol
  | 0 => (acc, g)
  | m + 1 =>
    let p := g.receive
    p.2.recvBitsFrom (acc ||| (p.1.toNat <<< m)) m

/-- receiveByte from gemini.h lines 129-147.  When 8 bits are available
the blocking and non-blocking variants coincide (neither calls update);
when fewer are available this models the non-blocking call, which
returns 0 without touching the FIFO.  (The blocking variant instead
spins on update() until 8 bits arrive.) -/
def GeminiProtocol.receiveByte (g : GeminiProtocol) : Nat × GeminiProtocol :=
  if g.hasDataN 8 then g.recvBitsFrom 0 8
  else (0, g)

/-- Bits of a byte, most significant first, as pushed by send(uint8_t). -/
def bitsMSB (d : Nat) : List Bool :=
  [d.testBit 7, d.testBit 6, d.testBit 5, d.testBit 4,
   d.testBit 3, d.testBit 2, d.testBit 1, d.testBit 0]

/-- sendBits generalizes the send(uint8_t) loop to an arbitrary list of
bits: push each in turn, stopping at the first failure. -/
def GeminiProtocol.sendBits (g : GeminiProtocol) :
    List Bool → Bool × GeminiProtocol
  | [] => (true, g)
  | b :: rest =>
    let p := g.sendBit b
    if p.1 then p.2.sendBits rest
    else (false, p.2)

/-- pushAllBits attempts every bit in turn, ignoring failures (the
behavior of sendFrame, which discards the result of each send). -/
def GeminiProtocol.pushAllBits (g : GeminiProtocol) :
    List Bool → GeminiProtocol
  | [] => g
  | b :: rest => ((g.sendBit b).2).pushAllBits rest

/-- Fuel-indexed version of the loop `while (hasData()) receive();`
(each receive on a non-empty FIFO decrements the count, so a fuel equal
to the count makes the fuelled loop equal to the C loop). -/
def GeminiProtocol.drainInputFuel : Nat → GeminiProtocol → GeminiProtocol
  | 0, g => g
  | n + 1, g => if g.hasData then GeminiProtocol.drainInputFuel n (g.receive).2 else g

/-- Loop `while (hasData()) receive();` from geminiFrame.h. -/
def GeminiProtocol.drainInput (g : GeminiProtocol) : GeminiProtocol :=
  GeminiProtocol.drainInputFuel g.inputBuffer.count g

/-- Frame states of GeminiFrame (geminiFrame.h, enum class FrameState). -/
inductive FrameState where
  | WAIT_FRAME_START
  | WAIT_FRAME_DATA
  | FRAME_END
deriving DecidableEq

/-- GeminiFrame from geminiFrame.h.  The C++ class inherits from
GeminiProtocol; here the base-class state is the `proto` field.  The
caller-supplied byte array `uint8_t *pInputData` is modelled by the
total function `pInputData` (array contents) together with
`pInputDataNull` (whether the pointer is NULL, as after the no-argument
begin()). -/
structure GeminiFrame where
  proto : GeminiProtocol
  pInputData : Nat → Nat
  pInputDataNull : Bool
  pInputData_len : Nat
  byte_counter : Nat
  start_bit : Bool
  frameTimeoutCounter : Nat
  frameState : FrameState

/-- frameComplete() from geminiFrame.h lines 306-308. -/
def GeminiFrame.frameComplete (gf : GeminiFrame) : Bool :=
  decide (gf.pInputData_len ≤ gf.byte_counter)

/-- resetFrame() from geminiFrame.h lines 316-320. -/
def GeminiFrame.resetFrame (gf : GeminiFrame) : GeminiFrame :=
  { gf with byte_counter := 0, start_bit := false }

/-- getFrame() from geminiFrame.h: returns the buffer and resets the
frame; the returned pointer is the buffer itself. -/
def GeminiFrame.getFrame (gf : GeminiFrame) : (Nat → Nat) × GeminiFrame :=
  (gf.pInputData, gf.resetFrame)

/-- frameTimeoutDetected() from geminiFrame.h lines 371-373. -/
def GeminiFrame.frameTimeoutDetected (gf : GeminiFrame) : Bool :=
  decide (0 < gf.frameTimeoutCounter)

/-- frameStarted() from geminiFrame.h lines 423-425. -/
def GeminiFrame.frameStarted (gf : GeminiFrame) : Bool :=
  decide (0 < gf.byte_counter) || gf.start_bit

/-- checkFrameTimeout() from geminiFrame.h lines 415-417; micros() is
modelled by the `currentTime` argument. -/
def GeminiFrame.checkFrameTimeout (gf : GeminiFrame) (currentTime : Nat) : Bool :=
  decide (gf.proto.frameTimeout ≤ usub currentTime gf.proto.lastBitReadTime)

/-- Loop of sendFrame (geminiFrame.h lines 184-187) over the byte list:
for each byte, send a start bit and then the byte, discarding both
boolean results. -/
def sendFrameLoop (g : GeminiProtocol) : List Nat → GeminiProtocol
  | [] => g
  | d :: rest => sendFrameLoop (((g.sendBit true).2.send d).2) rest

/-- sendFrame from geminiFrame.h lines 183-188.  The C function returns
void, so no success or failure indication reaches the caller. -/
def GeminiFrame.sendFrame (gf : GeminiFrame) (pdata : List Nat) : GeminiFrame :=
  { gf with proto := sendFrameLoop gf.proto pdata }

/-- handleFrameData from geminiFrame.h lines 253-294.  Its call site
guarantees hasData() and pInputData != NULL.  `currentTime` models the
micros() call inside checkFrameTimeout(). -/
def GeminiFrame.handleFrameData (gf : GeminiFrame) (currentTime : Nat) :
    GeminiFrame :=
  if gf.frameComplete then
    { gf with proto := gf.proto.drainInput }
  else if gf.proto.hasData then
    if gf.start_bit then
      if gf.proto.hasDataN 8 then
        let p := gf.proto.receiveByte
        { gf with proto := p.2,
                  pInputData := Function.update gf.pInputData gf.byte_counter p.1,
                  byte_counter := gf.byte_counter + 1,
                  start_bit := false }
      else gf
    else
      let p := gf.proto.receive
      { gf with proto := p.2, start_bit := p.1 }
  else if gf.frameStarted then
    if gf.checkFrameTimeout currentTime then
      { gf with frameTimeoutCounter := gf.frameTimeoutCounter + 1,
                byte_counter := 0, start_bit := false }
    else gf
  else gf

/-- Fuel-indexed version of the WAIT_FRAME_START loop
`while (hasData() && frameEndDetected) receive();`. -/
def drainWhileFrameEndFuel : Nat → GeminiProtocol → GeminiProtocol
  | 0, g => g
  | n + 1, g =>
    if g.hasData && g.frameEndDetected then
      drainWhileFrameEndFuel n (g.receive).2
    else g

/-- update from geminiFrame.h lines 204-245: first runs the base-class
update, then advances the frame state machine.  The returned Bool is
the pulse indication from the base-class update. -/
def GeminiFrame.update (gf : GeminiFrame) (currentTime : Nat)
    (inputLine : Bool) : GeminiFrame × Bool :=
  let p := gf.proto.update currentTime inputLine
  let gf1 : GeminiFrame := { gf with proto := p.1 }
  match gf1.frameState with
  | FrameState.WAIT_FRAME_START =>
    let gf2 :=
      if gf1.proto.hasData && !gf1.pInputDataNull then
        { gf1 with proto :=
            drainWhileFrameEndFuel gf1.proto.inputBuffer.count gf1.proto }
      else gf1
    let gf3 :=
      if !gf2.proto.frameEndDetected then
        { gf2.resetFrame with frameState := FrameState.WAIT_FRAME_DATA }
      else gf2
    (gf3, p.2)
  | FrameState.WAIT_FRAME_DATA =>
    let gf2 :=
      if gf1.proto.hasData && !gf1.pInputDataNull then
        gf1.handleFrameData currentTime
      else gf1
    let gf3 :=
      if gf2.proto.frameEndDetected then
        { gf2 with frameState := FrameState.FRAME_END }
      else gf2
    (gf3, p.2)
  | FrameState.FRAME_END =>
    let gf2 :=
      if !gf1.pInputDataNull then { gf1 with proto := gf1.proto.drainInput }
      else gf1
    let gf3 :=
      if gf2.proto.frameEndDetected then
        { gf2 with frameState := FrameState.WAIT_FRAME_START }
      else gf2
    (gf3, p.2)

/-- Two peers wired back to back: the output line of each is the input
line of the other, and a pulse on one output raises the edge-interrupt
flag of the other peer. -/
structure World where
  peerA : GeminiProtocol
  peerB : GeminiProtocol

/-- Run one update of peer A at time `t`; a pulse delivers an edge to
peer B. -/
def World.stepA (w : World) (t : Nat) : World :=
  let p := w.peerA.update t w.peerB.outputLine
  { peerA := p.1,
    peerB := if p.2 then { w.peerB with inputEdgeDetected := true } else w.peerB }

/-- Run one update of peer B at time `t`; a pulse delivers an edge to
peer A. -/
def World.stepB (w : World) (t : Nat) : World :=
  let p := w.peerB.update t w.peerA.outputLine
  { peerA := if p.2 then { w.peerA with inputEdgeDetected := true } else w.peerA,
    peerB := p.1 }

/-- Run `n` rounds of the cooperative schedule: at each time tick, peer A
updates and then peer B updates.  Every emitted bit is delivered in
order and every delivered bit is acknowledged, exactly as in the claim
of a complete simulated handshake exchange. -/
def World.run : Nat → Nat → World → World
  | 0, _, w => w
  | n + 1, t, w => World.run n (t + 1) ((w.stepA t).stepB t)

/-- A freshly constructed and begun peer: state IDLE, empty FIFOs,
frameEndDetected initially true (gemini.h line 219), lastBitReadTime 0
(begin()).  The timing configuration uses zero setup and hold delays so
that every wait has elapsed at the next tick, and the default 50000
microsecond frame timeout, which never expires during the short
exchange. -/
def mkPeer (canInit : Bool) : GeminiProtocol :=
  { writePulseMicros := 10, handshakeTimeoutMicros := 100000,
    readDelayMicros := 0, writeDelayMicros := 0,
    canBeInitiator := canInit, isInitiator := false,
    state := State.IDLE, inputBuffer := boolFifo.init,
    outputBuffer := boolFifo.init, lastBitReadTime := 0,
    frameTimeout := 50000, frameEndDetected := true,
    inputEdgeDetected := false, outputLine := false }

/-- Enqueue byte `b` on peer A with send(uint8_t), then run the
two-peer handshake schedule for 36 rounds, which completes the whole
exchange (the exchange of one byte needs 33 rounds). -/
def simWorld (b : Nat) : World :=
  World.run 36 0 ⟨((mkPeer true).send b).2, mkPeer false⟩

/-- The byte read back by receiveByte() on peer B after the simulated
exchange. -/
def simResult (b : Nat) : Nat :=
  ((simWorld b).peerB.receiveByte).1

/-- Flattened bit stream produced by sendFrame for a byte list: for each
byte a start bit followed by its 8 bits MSB first. -/
def frameBits : List Nat → List Bool
  | [] => []
  | d :: rest => (true :: bitsMSB d) ++ frameBits rest

theorem frameBits_length (l : List Nat) : (frameBits l).length = 9 * l.length := by
  induction l with
  | nil => rfl
  | cons d rest ih => simp [frameBits, bitsMSB, ih]; ring

theorem send_eq_sendBits (g : GeminiProtocol) (d : Nat) :
    g.send d = g.sendBits (bitsMSB d) := rfl

theorem sendBit_WF (g : GeminiProtocol) (b : Bool) (hwf : g.outputBuffer.WF) :
    (g.sendBit b).2.outputBuffer.WF := by
  unfold GeminiProtocol.sendBit
  by_cases hfull : g.outputBuffer.full
  · simp [hfull]; exact hwf
  · have hlt : g.outputBuffer.count < FIFO_SIZE := by
      rcases hwf with ⟨hc, -, -⟩
      simp [boolFifo.full] at hfull
      omega
    simp [hfull]
    exact (g.outputBuffer.push_spec b hwf hlt).2.1

theorem sendBits_spec (l : List Bool) : ∀ g : GeminiProtocol,
    g.outputBuffer.WF →
    ((g.sendBits l).1 = true ↔ l.length ≤ FIFO_SIZE - g.outputBuffer.count) ∧
    (g.sendBits l).2.outputBuffer.WF ∧
    (g.sendBits l).2.outputBuffer.toList
      = g.outputBuffer.toList ++ l.take (FIFO_SIZE - g.outputBuffer.count) ∧
    (g.sendBits l).2.outputBuffer.count
      = min (g.outputBuffer.count + l.length) FIFO_SIZE := by
  induction l with
  | nil =>
    intro g hwf
    have hc := hwf.1
    refine ⟨by simp [GeminiProtocol.sendBits], hwf, by simp [GeminiProtocol.sendBits], ?_⟩
    simp [GeminiProtocol.sendBits]
    omega
  | cons b rest ih =>
    intro g hwf
    have hc := hwf.1
    by_cases hfull : g.outputBuffer.count = FIFO_SIZE
    · have hfb : g.outputBuffer.full = true := by simp [boolFifo.full, hfull]
      have hstep : g.sendBits (b :: rest) = (false, g) := by
        simp [GeminiProtocol.sendBits, GeminiProtocol.sendBit, hfb]
      rw [hstep]
      refine ⟨by simp [hfull], hwf, by simp [hfull], by simp [hfull]⟩
    · have hlt : g.outputBuffer.count < FIFO_SIZE := by omega
      have hfb : g.outputBuffer.full = false := by
        simp [boolFifo.full]; omega
      obtain ⟨-, hwf2, htl, hcnt⟩ := g.outputBuffer.push_spec b hwf hlt
      set g2 : GeminiProtocol := { g with outputBuffer := (g.outputBuffer.push b).2 }
      have hstep : g.sendBits (b :: rest) = g2.sendBits rest := by
        simp [GeminiProtocol.sendBits, GeminiProtocol.sendBit, hfb]
      have hwf2g : g2.outputBuffer.WF := hwf2
      obtain ⟨ih1, ih2, ih3, ih4⟩ := ih g2 hwf2g
      have hg2cnt : g2.outputBuffer.count = g.outputBuffer.count + 1 := hcnt
      obtain ⟨k, hk⟩ : ∃ k, FIFO_SIZE - g.outputBuffer.count = k + 1 :=
        ⟨FIFO_SIZE - g.outputBuffer.count - 1, by omega⟩
      refine ⟨?_, by rw [hstep]; exact ih2, ?_, ?_⟩
      · rw [hstep, ih1, hg2cnt]
        simp
        omega
      · rw [hstep, ih3, hg2cnt, hk, List.take_succ_cons]
        have h2 : FIFO_SIZE - (g.outputBuffer.count + 1) = k := by omega
        rw [h2]
        show (g.outputBuffer.push b).2.toList ++ _ = _
        rw [htl]
        simp
      · rw [hstep, ih4, hg2cnt]
        simp
        omega

theorem pushAllBits_full (l : List Bool) : ∀ g : GeminiProtocol,
    g.outputBuffer.count = FIFO_SIZE → g.pushAllBits l = g := by
  induction l with
  | nil => intro g _; rfl
  | cons b rest ih =>
    intro g hfull
    have hfb : g.outputBuffer.full = true := by simp [boolFifo.full, hfull]
    have : (g.sendBit b).2 = g := by simp [GeminiProtocol.sendBit, hfb]
    rw [GeminiProtocol.pushAllBits, this, ih g hfull]

theorem pushAllBits_eq_sendBits (l : List Bool) : ∀ g : GeminiProtocol,
    g.outputBuffer.count ≤ FIFO_SIZE → g.pushAllBits l = (g.sendBits l).2 := by
  induction l with
  | nil => intro g _; rfl
  | cons b rest ih =>
    intro g hle
    by_cases hfull : g.outputBuffer.count = FIFO_SIZE
    · have hfb : g.outputBuffer.full = true := by simp [boolFifo.full, hfull]
      have hb : (g.sendBit b) = (false, g) := by simp [GeminiProtocol.sendBit, hfb]
      rw [GeminiProtocol.pushAllBits, GeminiProtocol.sendBits, hb]
      simpa using pushAllBits_full rest g hfull
    · have hfb : g.outputBuffer.full = false := by simp [boolFifo.full]; omega
      have hb : g.sendBit b
          = (true, { g with outputBuffer := (g.outputBuffer.push b).2 }) := by
        simp [GeminiProtocol.sendBit, hfb]
      have hle2 : (g.outputBuffer.push b).2.count ≤ FIFO_SIZE := by
        simp [boolFifo.push, show ¬ FIFO_SIZE ≤ g.outputBuffer.count by omega]
        omega
      rw [GeminiProtocol.pushAllBits, GeminiProtocol.sendBits, hb]
      simp only
      exact ih _ hle2

theorem pushAllBits_append (l1 l2 : List Bool) : ∀ g : GeminiProtocol,
    g.pushAllBits (l1 ++ l2) = (g.pushAllBits l1).pushAllBits l2 := by
  induction l1 with
  | nil => intro g; rfl
  | cons b rest ih =>
    intro g
    rw [List.cons_append, GeminiProtocol.pushAllBits, GeminiProtocol.pushAllBits, ih]

theorem sendFrameLoop_eq (pdata : List Nat) : ∀ g : GeminiProtocol,
    g.outputBuffer.WF → sendFrameLoop g pdata = g.pushAllBits (frameBits pdata) := by
  induction pdata with
  | nil => intro g _; rfl
  | cons d rest ih =>
    intro g hwf
    have hwf1 : (g.sendBit true).2.outputBuffer.WF := sendBit_WF g true hwf
    have hwf2 : ((g.sendBit true).2.send d).2.outputBuffer.WF := by
      rw [send_eq_sendBits]
      exact (sendBits_spec (bitsMSB d) (g.sendBit true).2 hwf1).2.1
    have hkey : ((g.sendBit true).2.send d).2
        = (g.sendBit true).2.pushAllBits (bitsMSB d) := by
      rw [send_eq_sendBits]
      exact (pushAllBits_eq_sendBits (bitsMSB d) (g.sendBit true).2 hwf1.1).symm
    rw [sendFrameLoop, ih _ hwf2, frameBits, List.cons_append,
      GeminiProtocol.pushAllBits, pushAllBits_append, hkey]

theorem drainInputFuel_count (n : Nat) : ∀ g : GeminiProtocol,
    g.inputBuffer.count ≤ n →
    (GeminiProtocol.drainInputFuel n g).inputBuffer.count = 0 := by
  induction n with
  | zero =>
    intro g hle
    simpa [GeminiProtocol.drainInputFuel] using Nat.le_zero.mp hle
  | succ m ih =>
    intro g hle
    by_cases hz : g.inputBuffer.count = 0
    · have : g.hasData = false := by
        simp [GeminiProtocol.hasData, boolFifo.empty, hz]
      simp [GeminiProtocol.drainInputFuel, this, hz]
    · have hhd : g.hasData = true := by
        simp [GeminiProtocol.hasData, boolFifo.empty, hz]
      have hcnt : (g.receive).2.inputBuffer.count = g.inputBuffer.count - 1 := by
        simp [GeminiProtocol.receive, boolFifo.pull, hz]
      rw [GeminiProtocol.drainInputFuel, hhd]
      simp only [if_true]
      apply ih
      omega

theorem drainInputFuel_frame (n : Nat) : ∀ g : GeminiProtocol,
    GeminiProtocol.drainInputFuel n g =
      { g with inputBuffer := (GeminiProtocol.drainInputFuel n g).inputBuffer } := by
  induction n with
  | zero => intro g; rfl
  | succ m ih =>
    intro g
    by_cases hhd : g.hasData
    · rw [GeminiProtocol.drainInputFuel, if_pos hhd, ih]
      rfl
    · rw [GeminiProtocol.drainInputFuel, if_neg hhd]

theorem drainInput_spec (g : GeminiProtocol) :
    (g.drainInput).inputBuffer.count = 0 ∧
    g.drainInput = { g with inputBuffer := (g.drainInput).inputBuffer } := by
  exact ⟨drainInputFuel_count g.inputBuffer.count g (le_refl _),
    drainInputFuel_frame g.inputBuffer.count g⟩

/-- C6: for any sequence of at most 64 bits pushed into an empty
boolFifo, successive pulls return exactly that sequence in push order;
and when 64 bits were pushed, a further (65th) push returns false and
leaves the whole FIFO record (stored content, occupancy count, head and
tail indices) unchanged. -/
theorem C6_fifo_order (l : List Bool) (h : l.length ≤ 64) :
    (pullList (pushList boolFifo.init l) l.length).1 = l ∧
    (l.length = 64 →
      ∀ b, (pushList boolFifo.init l).push b = (false, pushList boolFifo.init l)) := by
  obtain ⟨hwf, htl, hcnt⟩ :=
    pushList_spec l boolFifo.init boolFifo.WF_init (by simpa [boolFifo.init] using h)
  constructor
  · obtain ⟨hpull, -, -⟩ :=
      pullList_spec l.length (pushList boolFifo.init l) hwf
        (by rw [hcnt]; simp [boolFifo.init])
    rw [hpull, htl, boolFifo.toList_init]
    simp
  · intro h64 b
    apply boolFifo.push_full
    rw [hcnt, h64]
    simp [boolFifo.init, FIFO_SIZE]

/-- Witness for C6 at a concrete 64-bit sequence: the hypothesis holds
and the round-trip and full-push conclusions follow. -/
theorem C6_fifo_order_witness :
    (List.replicate 64 true).length ≤ 64 ∧
    ((pullList (pushList boolFifo.init (List.replicate 64 true))
        (List.replicate 64 true).length).1 = List.replicate 64 true ∧
     ((List.replicate 64 true).length = 64 →
      ∀ b, (pushList boolFifo.init (List.replicate 64 true)).push b
        = (false, pushList boolFifo.init (List.replicate 64 true)))) :=
  ⟨by decide, C6_fifo_order (List.replicate 64 true) (by decide)⟩

/-- C7: when the outbound FIFO has only k < 8 free slots, send(uint8_t)
returns false and exactly the first k bits of the byte, MSB first, have
been appended to the outbound FIFO and remain queued there. -/
theorem C7_send_partial (g : GeminiProtocol) (d : Nat)
    (hwf : g.outputBuffer.WF)
    (hlt : FIFO_SIZE - g.outputBuffer.count < 8) :
    (g.send d).1 = false ∧
    (g.send d).2.outputBuffer.toList
      = g.outputBuffer.toList
        ++ (bitsMSB d).take (FIFO_SIZE - g.outputBuffer.count) := by
  obtain ⟨hiff, -, htl, -⟩ := sendBits_spec (bitsMSB d) g hwf
  rw [send_eq_sendBits]
  refine ⟨?_, htl⟩
  by_cases hres : (g.sendBits (bitsMSB d)).1 = true
  · exfalso
    have h8 := hiff.mp hres
    simp [bitsMSB] at h8
    omega
  · simpa using hres

/-- Protocol state used as the concrete input of the C7 witness: a peer
whose outbound FIFO already holds 60 bits, leaving 4 free slots. -/
def gC7 : GeminiProtocol :=
  { writePulseMicros := 10, handshakeTimeoutMicros := 100000,
    readDelayMicros := 40, writeDelayMicros := 20,
    canBeInitiator := true, isInitiator := false,
    state := State.IDLE, inputBuffer := boolFifo.init,
    outputBuffer := pushList boolFifo.init (List.replicate 60 false),
    lastBitReadTime := 0, frameTimeout := 50000,
    frameEndDetected := true, inputEdgeDetected := false,
    outputLine := false }

/-- Witness for C7: with 4 free slots, sending byte 165 fails and only
its first 4 bits are appended. -/
theorem C7_send_partial_witness :
    gC7.outputBuffer.WF ∧ FIFO_SIZE - gC7.outputBuffer.count < 8 ∧
    ((gC7.send 165).1 = false ∧
     (gC7.send 165).2.outputBuffer.toList
       = gC7.outputBuffer.toList
         ++ (bitsMSB 165).take (FIFO_SIZE - gC7.outputBuffer.count)) :=
  ⟨by decide, by decide, C7_send_partial gC7 165 (by decide) (by decide)⟩

/-- C8: in every FrameCodec state whose frame is complete,
handleFrameData consumes and discards every inbound bit while leaving
the frame buffer bytes, the write index and everything else unchanged,
and the frame remains complete afterwards. -/
theorem C8_complete_frame_discards (gf : GeminiFrame) (t : Nat)
    (hc : gf.frameComplete = true) :
    gf.handleFrameData t
      = { gf with proto := { gf.proto with
            inputBuffer := (gf.proto.drainInput).inputBuffer } } ∧
    (gf.handleFrameData t).proto.inputBuffer.count = 0 ∧
    (gf.handleFrameData t).pInputData = gf.pInputData ∧
    (gf.handleFrameData t).byte_counter = gf.byte_counter ∧
    (gf.handleFrameData t).frameComplete = true := by
  have h1 : gf.handleFrameData t = { gf with proto := gf.proto.drainInput } := by
    simp [GeminiFrame.handleFrameData, hc]
  obtain ⟨hcnt, hframe⟩ := drainInput_spec gf.proto
  refine ⟨?_, ?_, ?_, ?_, ?_⟩
  · conv_lhs => rw [h1, hframe]
  · rw [h1]
    exact hcnt
  · rw [h1]
  · rw [h1]
  · rw [h1]
    exact hc

/-- Frame state used as the concrete input of the C8 witness: a complete
2-byte frame with 3 residual bits still queued inbound. -/
def gfC8 : GeminiFrame :=
  { proto :=
      { writePulseMicros := 10, handshakeTimeoutMicros := 100000,
        readDelayMicros := 40, writeDelayMicros := 20,
        canBeInitiator := false, isInitiator := false,
        state := State.IDLE,
        inputBuffer := pushList boolFifo.init [true, false, true],
        outputBuffer := boolFifo.init,
        lastBitReadTime := 0, frameTimeout := 50000,
        frameEndDetected := false, inputEdgeDetected := false,
        outputLine := false },
    pInputData := fun _ => 0, pInputDataNull := false,
    pInputData_len := 2, byte_counter := 2, start_bit := false,
    frameTimeoutCounter := 0, frameState := FrameState.WAIT_FRAME_DATA }

/-- Witness for C8: on the complete frame gfC8 the three queued bits are
discarded and the frame buffer and write index stay untouched. -/
theorem C8_complete_frame_discards_witness :
    gfC8.frameComplete = true ∧
    (gfC8.handleFrameData 1000
      = { gfC8 with proto := { gfC8.proto with
            inputBuffer := (gfC8.proto.drainInput).inputBuffer } } ∧
     (gfC8.handleFrameData 1000).proto.inputBuffer.count = 0 ∧
     (gfC8.handleFrameData 1000).pInputData = gfC8.pInputData ∧
     (gfC8.handleFrameData 1000).byte_counter = gfC8.byte_counter ∧
     (gfC8.handleFrameData 1000).frameComplete = true) :=
  ⟨by decide, C8_complete_frame_discards gfC8 1000 (by decide)⟩

/-- C9: whenever the inbound FIFO holds fewer than 8 bits, the
non-blocking receiveByte returns the byte 0 and leaves the whole
protocol state, inbound FIFO included, unchanged. -/
theorem C9_receiveByte_nonblocking (g : GeminiProtocol)
    (h : g.inputBuffer.size < 8) :
    g.receiveByte = (0, g) := by
  have hnd : g.hasDataN 8 = false := by
    simp [GeminiProtocol.hasDataN]
    simpa [boolFifo.size] using h
  simp [GeminiProtocol.receiveByte, hnd]

/-- Protocol state used as the concrete input of the C9 witness: only 3
bits queued inbound. -/
def gC9 : GeminiProtocol :=
  { writePulseMicros := 10, handshakeTimeoutMicros := 100000,
    readDelayMicros := 40, writeDelayMicros := 20,
    canBeInitiator := true, isInitiator := false,
    state := State.IDLE,
    inputBuffer := pushList boolFifo.init [true, true, true],
    outputBuffer := boolFifo.init,
    lastBitReadTime := 0, frameTimeout := 50000,
    frameEndDetected := true, inputEdgeDetected := false,
    outputLine := false }

/-- Witness for C9 at the concrete state gC9. -/
theorem C9_receiveByte_nonblocking_witness :
    gC9.inputBuffer.size < 8 ∧ gC9.receiveByte = (0, gC9) :=
  ⟨by decide, C9_receiveByte_nonblocking gC9 (by decide)⟩

/-- C10: sendFrame returns no success indication (its result type
carries only the new state) and ignores individual send failures: when
the outbound FIFO has fewer than 9 times n free slots, exactly the bits
that fit, taken in order from the flattened stream of start bits and
MSB-first byte bits, are enqueued; the remaining bits are dropped and
the partially enqueued bits are not removed, leaving the FIFO full. -/
theorem C10_sendFrame_truncates (gf : GeminiFrame) (pdata : List Nat)
    (hwf : gf.proto.outputBuffer.WF)
    (hlt : FIFO_SIZE - gf.proto.outputBuffer.count < 9 * pdata.length) :
    (gf.sendFrame pdata).proto.outputBuffer.toList
      = gf.proto.outputBuffer.toList
        ++ (frameBits pdata).take (FIFO_SIZE - gf.proto.outputBuffer.count) ∧
    (gf.sendFrame pdata).proto.outputBuffer.count = FIFO_SIZE := by
  have h2 : sendFrameLoop gf.proto pdata = (gf.proto.sendBits (frameBits pdata)).2 := by
    rw [sendFrameLoop_eq pdata gf.proto hwf,
      pushAllBits_eq_sendBits (frameBits pdata) gf.proto hwf.1]
  obtain ⟨-, -, htl, hcnt⟩ := sendBits_spec (frameBits pdata) gf.proto hwf
  have hc := hwf.1
  constructor
  · show (sendFrameLoop gf.proto pdata).outputBuffer.toList = _
    rw [h2]
    exact htl
  · show (sendFrameLoop gf.proto pdata).outputBuffer.count = FIFO_SIZE
    rw [h2, hcnt, frameBits_length]
    omega

/-- Frame state used as the concrete input of the C10 witness: empty
outbound FIFO (64 free slots), to which an 8-byte frame (72 bits) is
sent. -/
def gfC10 : GeminiFrame :=
  { proto :=
      { writePulseMicros := 10, handshakeTimeoutMicros := 100000,
        readDelayMicros := 40, writeDelayMicros := 20,
        canBeInitiator := true, isInitiator := false,
        state := State.IDLE, inputBuffer := boolFifo.init,
        outputBuffer := boolFifo.init,
        lastBitReadTime := 0, frameTimeout := 50000,
        frameEndDetected := true, inputEdgeDetected := false,
        outputLine := false },
    pInputData := fun _ => 0, pInputDataNull := false,
    pInputData_len := 8, byte_counter := 0, start_bit := false,
    frameTimeoutCounter := 0, frameState := FrameState.WAIT_FRAME_START }

/-- Witness for C10: sending 8 bytes into 64 free slots enqueues only
the first 64 of the 72 frame bits. -/
theorem C10_sendFrame_truncates_witness :
    gfC10.proto.outputBuffer.WF ∧
    FIFO_SIZE - gfC10.proto.outputBuffer.count
      < 9 * (List.replicate 8 165).length ∧
    ((gfC10.sendFrame (List.replicate 8 165)).proto.outputBuffer.toList
      = gfC10.proto.outputBuffer.toList
        ++ (frameBits (List.replicate 8 165)).take
            (FIFO_SIZE - gfC10.proto.outputBuffer.count) ∧
     (gfC10.sendFrame (List.replicate 8 165)).proto.outputBuffer.count
       = FIFO_SIZE) :=
  ⟨by decide, by decide,
    C10_sendFrame_truncates gfC10 (List.replicate 8 165) (by decide) (by decide)⟩

/-- C2: in state BIT_READ_START (AwaitingSampleDelay), a step before
readDelayMicros has elapsed since the recorded edge changes nothing.
Once it has elapsed, the step samples the input line and applies push to
the inbound FIFO, then: with the outbound FIFO empty and this side the
initiator it returns to IDLE without a pulse; with the outbound FIFO
empty and the peer the initiator it emits an acknowledge pulse, leaves
the line low and returns to IDLE; otherwise it pulses, drives the line
to the next dequeued outbound bit and moves to BIT_WRITE_WAIT_ACK. -/
theorem C2_bit_read_start (g : GeminiProtocol) (t : Nat) (line : Bool)
    (hs : g.state = State.BIT_READ_START) :
    (usub t g.lastBitReadTime < g.readDelayMicros →
      g.update t line = (g, false)) ∧
    (g.readDelayMicros ≤ usub t g.lastBitReadTime →
      (g.outputBuffer.empty = true → g.isInitiator = true →
        g.update t line =
          ({ g with inputBuffer := (g.inputBuffer.push line).2,
                    outputLine := false, inputEdgeDetected := false,
                    isInitiator := false, state := State.IDLE,
                    lastBitReadTime := t }, false)) ∧
      (g.outputBuffer.empty = true → g.isInitiator = false →
        g.update t line =
          ({ g with inputBuffer := (g.inputBuffer.push line).2,
                    outputLine := false, state := State.IDLE,
                    lastBitReadTime := t }, true)) ∧
      (g.outputBuffer.empty = false →
        g.update t line =
          ({ g with inputBuffer := (g.inputBuffer.push line).2,
                    outputLine := (g.outputBuffer.pull).1,
                    outputBuffer := (g.outputBuffer.pull).2,
                    state := State.BIT_WRITE_WAIT_ACK,
                    lastBitReadTime := t }, true))) := by
  constructor
  · intro h
    have hn : ¬ (g.readDelayMicros ≤ usub t g.lastBitReadTime) := by omega
    simp [GeminiProtocol.update, hs, hn]
  · intro h
    refine ⟨?_, ?_, ?_⟩
    · intro h1 h2
      simp [GeminiProtocol.update, hs, h, h1, h2]
    · intro h1 h2
      simp [GeminiProtocol.update, hs, h, h1, h2]
    · intro h1
      simp [GeminiProtocol.update, hs, h, h1]

/-- Protocol state used as the concrete input of the C2 witness: in
BIT_READ_START with one queued outbound bit, readDelayMicros 5 and last
edge at time 0. -/
def gC2 : GeminiProtocol :=
  { writePulseMicros := 10, handshakeTimeoutMicros := 100000,
    readDelayMicros := 5, writeDelayMicros := 20,
    canBeInitiator := false, isInitiator := false,
    state := State.BIT_READ_START,
    inputBuffer := boolFifo.init,
    outputBuffer := pushList boolFifo.init [true],
    lastBitReadTime := 0, frameTimeout := 50000,
    frameEndDetected := false, inputEdgeDetected := false,
    outputLine := false }

/-- Witness for C2 at the concrete state gC2, stepped at time 9 with a
high input line. -/
theorem C2_bit_read_start_witness :
    gC2.state = State.BIT_READ_START ∧
    ((usub 9 gC2.lastBitReadTime < gC2.readDelayMicros →
      gC2.update 9 true = (gC2, false)) ∧
    (gC2.readDelayMicros ≤ usub 9 gC2.lastBitReadTime →
      (gC2.outputBuffer.empty = true → gC2.isInitiator = true →
        gC2.update 9 true =
          ({ gC2 with inputBuffer := (gC2.inputBuffer.push true).2,
                      outputLine := false, inputEdgeDetected := false,
                      isInitiator := false, state := State.IDLE,
                      lastBitReadTime := 9 }, false)) ∧
      (gC2.outputBuffer.empty = true → gC2.isInitiator = false →
        gC2.update 9 true =
          ({ gC2 with inputBuffer := (gC2.inputBuffer.push true).2,
                      outputLine := false, state := State.IDLE,
                      lastBitReadTime := 9 }, true)) ∧
      (gC2.outputBuffer.empty = false →
        gC2.update 9 true =
          ({ gC2 with inputBuffer := (gC2.inputBuffer.push true).2,
                      outputLine := (gC2.outputBuffer.pull).1,
                      outputBuffer := (gC2.outputBuffer.pull).2,
                      state := State.BIT_WRITE_WAIT_ACK,
                      lastBitReadTime := 9 }, true)))) :=
  ⟨rfl, C2_bit_read_start gC2 9 true rfl⟩

/-- C3: in IDLE with no pending input-edge event, a step reaches
BIT_WRITE_WAIT_ACK (beginning a self-initiated transmission) exactly
when the initiator-capability flag is set, the outbound FIFO is
non-empty and the frame-end flag is set; and in that case the step
pulses, drives the line to the first outbound bit removed from the
FIFO, clears the frame-end flag, marks the session self-initiated and
records the step time. -/
theorem C3_idle_initiation (g : GeminiProtocol) (t : Nat) (line : Bool)
    (hs : g.state = State.IDLE)
    (he : g.inputEdgeDetected = false) :
    (((g.update t line).1.state = State.BIT_WRITE_WAIT_ACK) ↔
      (g.canBeInitiator = true ∧ 0 < g.outputBuffer.size ∧
        g.frameEndDetected = true)) ∧
    (g.canBeInitiator = true → 0 < g.outputBuffer.size →
      g.frameEndDetected = true →
      g.update t line =
        ({ g with isInitiator := true,
                  outputLine := (g.outputBuffer.pull).1,
                  outputBuffer := (g.outputBuffer.pull).2,
                  frameEndDetected := false,
                  state := State.BIT_WRITE_WAIT_ACK,
                  lastBitReadTime := t }, true)) := by
  constructor
  · by_cases hf : g.frameEndDetected = true
    · by_cases hc : g.canBeInitiator = true
      · by_cases hsz : 0 < g.outputBuffer.size
        · simp [GeminiProtocol.update, hs, he, hf, hc, hsz]
        · simp [GeminiProtocol.update, hs, he, hf, hc, hsz]
      · have hc2 : g.canBeInitiator = false := by simpa using hc
        simp [GeminiProtocol.update, hs, he, hf, hc2]
    · have hf2 : g.frameEndDetected = false := by simpa using hf
      by_cases ht : g.frameTimeout ≤ usub t g.lastBitReadTime
      · simp [GeminiProtocol.update, hs, he, hf2, ht]
      · simp [GeminiProtocol.update, hs, he, hf2, ht]
  · intro h1 h2 h3
    simp [GeminiProtocol.update, hs, he, h1, h2, h3]

/-- Protocol state used as the concrete input of the C3 witness: idle,
allowed to initiate, one queued outbound bit and the frame-end flag
set. -/
def gC3 : GeminiProtocol :=
  { writePulseMicros := 10, handshakeTimeoutMicros := 100000,
    readDelayMicros := 40, writeDelayMicros := 20,
    canBeInitiator := true, isInitiator := false,
    state := State.IDLE, inputBuffer := boolFifo.init,
    outputBuffer := pushList boolFifo.init [true],
    lastBitReadTime := 0, frameTimeout := 50000,
    frameEndDetected := true, inputEdgeDetected := false,
    outputLine := false }

/-- Witness for C3 at the concrete state gC3, stepped at time 7. -/
theorem C3_idle_initiation_witness :
    gC3.state = State.IDLE ∧ gC3.inputEdgeDetected = false ∧
    ((((gC3.update 7 false).1.state = State.BIT_WRITE_WAIT_ACK) ↔
      (gC3.canBeInitiator = true ∧ 0 < gC3.outputBuffer.size ∧
        gC3.frameEndDetected = true)) ∧
    (gC3.canBeInitiator = true → 0 < gC3.outputBuffer.size →
      gC3.frameEndDetected = true →
      gC3.update 7 false =
        ({ gC3 with isInitiator := true,
                    outputLine := (gC3.outputBuffer.pull).1,
                    outputBuffer := (gC3.outputBuffer.pull).2,
                    frameEndDetected := false,
                    state := State.BIT_WRITE_WAIT_ACK,
                    lastBitReadTime := 7 }, true))) :=
  ⟨rfl, rfl, C3_idle_initiation gC3 7 false rfl rfl⟩

/-- C5: in BIT_WRITE_WAIT_ACK (AwaitingPeerAck) with no pending
input-edge event, a step at any time leaves the whole protocol state
(state, FIFOs, output line) unchanged and emits no pulse: the
configured handshakeTimeoutMicros is never consulted, so without a peer
edge the channel remains in BIT_WRITE_WAIT_ACK indefinitely. -/
theorem C5_wait_ack_stalls (g : GeminiProtocol) (t : Nat) (line : Bool)
    (hs : g.state = State.BIT_WRITE_WAIT_ACK)
    (he : g.inputEdgeDetected = false) :
    g.update t line = (g, false) := by
  simp [GeminiProtocol.update, hs, he]

/-- Protocol state used as the concrete input of the C5 witness:
waiting for the peer acknowledge with a short configured handshake
timeout of 100 microseconds, long exceeded at the step time. -/
def gC5 : GeminiProtocol :=
  { writePulseMicros := 10, handshakeTimeoutMicros := 100,
    readDelayMicros := 40, writeDelayMicros := 20,
    canBeInitiator := true, isInitiator := true,
    state := State.BIT_WRITE_WAIT_ACK, inputBuffer := boolFifo.init,
    outputBuffer := pushList boolFifo.init [false, true],
    lastBitReadTime := 0, frameTimeout := 50000,
    frameEndDetected := false, inputEdgeDetected := false,
    outputLine := true }

/-- Witness for C5: a step one full second after the last activity,
far beyond the configured 100 microsecond handshake timeout, still
changes nothing. -/
theorem C5_wait_ack_stalls_witness :
    gC5.state = State.BIT_WRITE_WAIT_ACK ∧ gC5.inputEdgeDetected = false ∧
    gC5.update 1000000 false = (gC5, false) :=
  ⟨rfl, rfl, C5_wait_ack_stalls gC5 1000000 false rfl rfl⟩

set_option maxHeartbeats 4000000 in
/-- C1: for every byte b, enqueueing b with send(uint8_t) on one peer
and stepping both peers through a complete simulated handshake exchange
(every bit delivered in order and acknowledged) makes receiveByte() on
the other peer return exactly b: decode after encode is the identity on
bytes. -/
theorem C1_roundtrip (b : Fin 256) : simResult b.val = b.val := by
  revert b
  decide

/-- Helper for C4: whenever handleFrameData is entered with data
available in the inbound FIFO (which its only call site guarantees),
the frame-timeout counter is not changed: the incrementing branch needs
hasData() to be false at entry. -/
theorem handleFrameData_counter (gf : GeminiFrame) (t : Nat)
    (hhd : gf.proto.hasData = true) :
    (gf.handleFrameData t).frameTimeoutCounter = gf.frameTimeoutCounter := by
  unfold GeminiFrame.handleFrameData
  split_ifs <;> simp_all

/-- Frame state used as the failing input of C4: a partially received
frame (write index 1 of 5), no inbound bits, channel idle since time 0
with the default 50000 microsecond frame timeout. -/
def gfC4 : GeminiFrame :=
  { proto :=
      { writePulseMicros := 10, handshakeTimeoutMicros := 100000,
        readDelayMicros := 40, writeDelayMicros := 20,
        canBeInitiator := false, isInitiator := false,
        state := State.IDLE, inputBuffer := boolFifo.init,
        outputBuffer := boolFifo.init,
        lastBitReadTime := 0, frameTimeout := 50000,
        frameEndDetected := false, inputEdgeDetected := false,
        outputLine := false },
    pInputData := fun _ => 0, pInputDataNull := false,
    pInputData_len := 5, byte_counter := 1, start_bit := false,
    frameTimeoutCounter := 0, frameState := FrameState.WAIT_FRAME_DATA }

/-- C4 (code behavior, refuting the claim): first, no update() step can
ever change the frame-timeout counter, because handleFrameData is only
called when inbound bits are available while its timeout branch needs
the opposite; second, at the concrete failing input gfC4, where a frame
is partially received, no inbound bits are available and the idle
timeout has elapsed, a single update() step leaves the counter at 0,
frameTimeoutDetected() false and the write index at 1 instead of
incrementing the counter to 1 and resetting the index to 0 as the claim
states (the step merely moves the frame state machine to FRAME_END). -/
theorem C4_frame_timeout_dead :
    (∀ (gf : GeminiFrame) (t : Nat) (line : Bool),
      (gf.update t line).1.frameTimeoutCounter = gf.frameTimeoutCounter) ∧
    (gfC4.frameStarted = true ∧ gfC4.proto.hasData = false ∧
     gfC4.checkFrameTimeout 50000 = true ∧
     (gfC4.update 50000 false).1.frameTimeoutCounter = 0 ∧
     (gfC4.update 50000 false).1.frameTimeoutDetected = false ∧
     (gfC4.update 50000 false).1.byte_counter = 1 ∧
     (gfC4.update 50000 false).1.frameState = FrameState.FRAME_END) := by
  constructor
  · intro gf t line
    obtain ⟨proto, pd, pn, len, bc, sb, ftc, fs⟩ := gf
    cases fs
    case WAIT_FRAME_START =>
      simp only [GeminiFrame.update]
      split_ifs <;> rfl
    case WAIT_FRAME_DATA =>
      simp only [GeminiFrame.update]
      split_ifs with h1 h2
      · rw [handleFrameData_counter _ _ ((Bool.and_eq_true _ _).mp h1).1]
      · rw [handleFrameData_counter _ _ ((Bool.and_eq_true _ _).mp h1).1]
      · rfl
      · rfl
    case FRAME_END =>
      simp only [GeminiFrame.update]
      split_ifs <;> rfl
  · exact ⟨by decide, by decide, by decide, by decide, by decide, by decide, by decide⟩

end K197
